import Mathlib

/-!
Verification of the zenoh InfluxDB storage backend (src/lib.rs): a shallow
embedding of the consistency and translation engine — timestamps, stored rows,
the ingestion path `on_sample`, the tombstone read `get_deletion_timestamp`,
the deferred reclamation task `TimedMeasurementDrop::run`, and the pure string
builders `path_exprs_to_influx_regex`, `normalize_rfc3339` and
`clauses_from_selector` — together with theorems settling the specification's
claims about them.
-/

namespace ZInflux

/-- A zenoh (uhlc) logical timestamp: a wall-clock component in nanoseconds
since UNIX_EPOCH plus a clock id, compared lexicographically (the total order
used by `change.timestamp < del_time` in the source). -/
structure Ts where
  time : Nat
  id : Nat
deriving DecidableEq, Repr

/-- The strict order on timestamps, as a boolean (time first, id second). -/
def Ts.ltb (a b : Ts) : Bool :=
  Nat.blt a.time b.time || (Nat.beq a.time b.time && Nat.blt a.id b.id)

/-- The opaque textual encoding of a timestamp stored in the InfluxDB
`timestamp` field (`change.timestamp.to_string()` in the source). -/
def printTs (t : Ts) : String :=
  toString t.time ++ "/" ++ toString t.id

/-- A nonempty all-digit character run read back as a number. -/
def parseNatChars (cs : List Char) : Option Nat :=
  match cs with
  | [] => none
  | _ =>
    if cs.all Char.isDigit then
      some (cs.foldl (fun n c => n * 10 + (c.toNat - 48)) 0)
    else none

/-- Parsing a stored `timestamp` field back into a timestamp
(`.parse::<Timestamp>()` in the source); fails on malformed text. -/
def parseTs (s : String) : Option Ts :=
  match s.data.splitOn '/' with
  | [a, b] =>
    match parseNatChars a, parseNatChars b with
    | some x, some y => some ⟨x, y⟩
    | _, _ => none
  | _ => none

/-- One InfluxDB point as the backend writes it: the physical time index, the
`kind` tag (PUT or DEL), and the `timestamp`, `encoding`, `base64`, `value`
fields (the last three absent on a DEL row). -/
structure Row where
  time : Nat
  kind : String
  timestamp : String
  encoding : Option Nat
  base64 : Option Bool
  value : Option String
deriving DecidableEq, Repr

/-- The database state: rows, each tagged with its measurement name. -/
abbrev Store := List (String × Row)

/-- The rows of one measurement, in insertion order. -/
def rowsOf (st : Store) (m : String) : List Row :=
  (st.filter (fun e => e.1 == m)).map (·.2)

/-- `SELECT "timestamp" FROM m WHERE kind='DEL' ORDER BY time DESC LIMIT 1`:
the most recent DEL-tagged row of the measurement, if any. -/
def latestDelRow (st : Store) (m : String) : Option Row :=
  ((rowsOf st m).filter (fun r => r.kind == "DEL")).foldl
    (fun acc r =>
      match acc with
      | none => some r
      | some b => if Nat.blt b.time r.time then some r else some b) none

/-- `DELETE FROM m WHERE time < t`: purge the measurement's rows strictly
older than `t`. -/
def purge (st : Store) (m : String) (t : Nat) : Store :=
  st.filter (fun e => !(e.1 == m && Nat.blt e.2.time t))

/-- `SELECT "kind" FROM m WHERE kind!='DEL' LIMIT 1` returned a series:
some row of the measurement is not DEL-tagged. -/
def existsNonDel (st : Store) (m : String) : Bool :=
  (rowsOf st m).any (fun r => !(r.kind == "DEL"))

/-- `DROP MEASUREMENT m`: destroy every row of the measurement. -/
def dropMeasurement (st : Store) (m : String) : Store :=
  st.filter (fun e => !(e.1 == m))

end ZInflux

namespace ZInflux

/-- What the raw InfluxDB read behind `get_deletion_timestamp` yields: the
HTTP query itself can fail, its JSON can fail to deserialize, or it returns
the series values — at most one timestamp string, by `LIMIT 1`. -/
inductive ReadOutcome where
  | ioError (msg : String)
  | deserializeError (msg : String)
  | rows (r : Option String)
deriving DecidableEq, Repr

/-- `InfluxDbStorage::get_deletion_timestamp`, as a function of the raw read's
outcome: both failure shapes become errors, an empty series is `none`, and a
returned timestamp string must parse or the call errors. -/
def get_deletion_timestamp (m : String) (o : ReadOutcome) : Except String (Option Ts) :=
  match o with
  | .ioError msg =>
    .error ("Failed to get latest timestamp for deletion of measurement " ++ m ++ " : " ++ msg)
  | .deserializeError msg =>
    .error ("Failed to get latest timestamp for deletion of measurement " ++ m ++ " : " ++ msg)
  | .rows none => .ok none
  | .rows (some s) =>
    match parseTs s with
    | some ts => .ok (some ts)
    | none =>
      .error ("Failed to parse the latest timestamp for deletion of measurement " ++ m)

/-- The outcome a functioning InfluxDB returns for that read against `st`:
the `timestamp` field of the most recent DEL-tagged row, if any. -/
def honestDelRead (st : Store) (m : String) : ReadOutcome :=
  .rows ((latestDelRow st m).map (·.timestamp))

/-- The kind of an incoming change (zenoh `ChangeKind`). -/
inductive ChangeKind where
  | put
  | delete
  | patch
deriving DecidableEq, Repr

/-- An incoming change event: its full path, kind, logical timestamp, and for
a Put possibly a value already encoded for storage as
`(encoding, base64, value)` — the triple `encode_to_string` produces. -/
structure Change where
  path : String
  kind : ChangeKind
  timestamp : Ts
  value : Option (Nat × Bool × String)
deriving DecidableEq, Repr

/-- Rust `str::strip_prefix`: the remainder of `s` after `p`, when `p` is a
prefix of `s` (character-wise, over the strings' character lists). -/
def stripPfx (p s : String) : Option String :=
  if p.data.isPrefixOf s.data then some (String.mk (s.data.drop p.data.length)) else none

/-- The measurement name for a path: the path itself, or — on a prefix-scoped
storage — the path stripped of the configured prefix (failing when the path
does not start with it). -/
def measurementOf (pfx : Option String) (path : String) : Option String :=
  match pfx with
  | none => some path
  | some p => stripPfx p path

/-- The I/O environment of one `on_sample` call: the outcome of the tombstone
read, and whether each write/delete issued to InfluxDB succeeds. -/
structure Env where
  delRead : ReadOutcome
  putWriteOk : Bool
  purgeOk : Bool
  delWriteOk : Bool
deriving DecidableEq, Repr

/-- The environment of a call against a reliable InfluxDB holding `st`: the
tombstone read reports the actual latest DEL row and every query succeeds. -/
def reliableEnv (st : Store) (m : String) : Env :=
  ⟨honestDelRead st m, true, true, true⟩

/-- `ZResult<()>`: success, or an error message. -/
inductive ZResult where
  | ok
  | err (msg : String)
deriving DecidableEq, Repr

/-- What one `on_sample` call did: its returned result, the store afterwards,
and the measurements whose deferred drop it scheduled. -/
structure Outcome where
  result : ZResult
  store : Store
  scheduledDrops : List String
deriving DecidableEq, Repr

/-- The point a Put writes: tag `kind=PUT`, fields `timestamp`, `encoding`,
`base64`, `value`, indexed at the event's physical time (nanoseconds of its
logical timestamp). -/
def putRow (c : Change) (enc : Nat) (b64 : Bool) (v : String) : Row where
  time := c.timestamp.time
  kind := "PUT"
  timestamp := printTs c.timestamp
  encoding := some enc
  base64 := some b64
  value := some v

/-- The tombstone point a Delete writes: tag `kind=DEL`, field `timestamp`,
no value fields, indexed at the event's physical time. -/
def delRow (c : Change) : Row where
  time := c.timestamp.time
  kind := "DEL"
  timestamp := printTs c.timestamp
  encoding := none
  base64 := none
  value := none

/-- `InfluxDbStorage::on_sample`: strip the path prefix, then apply the change
by kind — Put consults the tombstone read (propagating its failure), drops the
event silently when strictly older than the tombstone, rejects a missing
value, and writes one PUT row; Delete purges rows strictly older than the
event's physical time, writes one DEL row, and schedules the measurement's
deferred drop; Patch is an unsupported no-op. -/
def on_sample (pfx : Option String) (env : Env) (st : Store) (c : Change) : Outcome :=
  match measurementOf pfx c.path with
  | none => ⟨.err "Received a Sample not starting with path_prefix", st, []⟩
  | some m =>
    match c.kind with
    | .put =>
      match get_deletion_timestamp m env.delRead with
      | .error e => ⟨.err e, st, []⟩
      | .ok delOpt =>
        if (match delOpt with | some delT => c.timestamp.ltb delT | none => false) then
          ⟨.ok, st, []⟩
        else
          match c.value with
          | none => ⟨.err ("Received a PUT Sample without value for " ++ c.path), st, []⟩
          | some (enc, b64, v) =>
            if env.putWriteOk then
              ⟨.ok, st ++ [(m, putRow c enc b64 v)], []⟩
            else ⟨.err ("Failed to put Value for " ++ c.path ++ " in InfluxDb storage"), st, []⟩
    | .delete =>
      if env.purgeOk then
        if env.delWriteOk then
          ⟨.ok, purge st m c.timestamp.time ++ [(m, delRow c)], [m]⟩
        else ⟨.err ("Failed to mark measurement " ++ c.path ++ " as deleted"),
          purge st m c.timestamp.time, []⟩
      else ⟨.err ("Failed to delete points for measurement " ++ m ++ " from InfluxDb storage"),
        st, []⟩
    | .patch => ⟨.ok, st, []⟩

/-- What the existence check inside the reclamation task yields: the HTTP
query can fail, its JSON can fail to deserialize, or it reports whether a
non-DEL row exists. -/
inductive CheckOutcome where
  | ioError (msg : String)
  | deserializeError (msg : String)
  | rows (nonDelExists : Bool)
deriving DecidableEq, Repr

/-- The check outcome a functioning InfluxDB reports against `st`. -/
def honestCheck (st : Store) (m : String) : CheckOutcome :=
  .rows (existsNonDel st m)

/-- `TimedMeasurementDrop::run`: on a failed HTTP query it warns and returns;
on a non-DEL row it returns; otherwise it issues `DROP MEASUREMENT` (whose
own failure is only warned about, leaving the store intact). Note the source
falls through to the drop when deserializing the check's response fails. -/
def timedMeasurementDropRun (chk : CheckOutcome) (dropOk : Bool) (st : Store) (m : String) :
    Store :=
  match chk with
  | .ioError _ => st
  | .deserializeError _ => if dropOk then dropMeasurement st m else st
  | .rows true => st
  | .rows false => if dropOk then dropMeasurement st m else st

end ZInflux

namespace ZInflux

/-- The per-expression character translation of `path_exprs_to_influx_regex`:
the source iterates with a peekable character stream; at `*` it peeks — on a
second `*` it emits `.*` and consumes both, on any other following character
it emits `.*` (consuming only the first `*`), and at end of input it emits
nothing; `/` becomes the escaped `\/`; everything else passes through. -/
def translateChars : List Char → String
  | [] => ""
  | c :: rest =>
    if c = '*' then
      match rest with
      | [] => ""
      | c2 :: rest2 =>
        if c2 = '*' then ".*" ++ translateChars rest2
        else ".*" ++ translateChars (c2 :: rest2)
    else if c = '/' then "\\/" ++ translateChars rest
    else String.singleton c ++ translateChars rest

/-- `path_exprs_to_influx_regex`: the `|`-alternation of the translated
expressions, anchored between `/^` and `$/`. -/
def path_exprs_to_influx_regex (path_exprs : List String) : String :=
  "/^" ++ String.intercalate "|" (path_exprs.map (fun e => translateChars e.data)) ++ "$/"

/-- The character translation as claim C3 words it: every occurrence of `**`
and every occurrence of `*` — including one that ends the expression —
becomes `.*`, `/` becomes `\/`, all else passes through. -/
def claimTranslateChars : List Char → String
  | [] => ""
  | c :: rest =>
    if c = '*' then
      match rest with
      | [] => ".*"
      | c2 :: rest2 =>
        if c2 = '*' then ".*" ++ claimTranslateChars rest2
        else ".*" ++ claimTranslateChars (c2 :: rest2)
    else if c = '/' then "\\/" ++ claimTranslateChars rest
    else String.singleton c ++ claimTranslateChars rest

/-- The claimed output: anchored alternation of the claimed translations. -/
def claimRegex (path_exprs : List String) : String :=
  "/^" ++ String.intercalate "|" (path_exprs.map (fun e => claimTranslateChars e.data)) ++ "$/"

/-- The amended character translation: as the claim, except that a `*` that is
the final character of a path expression (and not part of a `**`) is dropped —
it contributes nothing to the output. -/
def amendedTranslateChars : List Char → String
  | [] => ""
  | c :: rest =>
    if c = '*' then
      match rest with
      | [] => ""
      | c2 :: rest2 =>
        if c2 = '*' then ".*" ++ amendedTranslateChars rest2
        else ".*" ++ amendedTranslateChars (c2 :: rest2)
    else if c = '/' then "\\/" ++ amendedTranslateChars rest
    else String.singleton c ++ amendedTranslateChars rest

/-- The amended claim's output: anchored alternation of the amended
translations. -/
def amendedRegex (path_exprs : List String) : String :=
  "/^" ++ String.intercalate "|" (path_exprs.map (fun e => amendedTranslateChars e.data)) ++ "$/"

end ZInflux

namespace ZInflux

/-- A character of the `[0-9:.]*` run in the instant pattern. -/
def isTimeChar (c : Char) : Bool := c.isDigit || c == ':' || c == '.'

/-- The ten-character shape `[0-9][0-9][0-9][0-9]-[0-9][0-9]-[0-9][0-9]`. -/
def dateShape : List Char → Bool
  | [d1, d2, d3, d4, h1, d5, d6, h2, d7, d8] =>
    d1.isDigit && d2.isDigit && d3.isDigit && d4.isDigit && h1 == '-' &&
      d5.isDigit && d6.isDigit && h2 == '-' && d7.isDigit && d8.isDigit
  | _ => false

/-- The mandatory date part of the instant pattern at the head of the input:
its ten characters and the remainder. -/
def matchDate (l : List Char) : Option (List Char × List Char) :=
  if Nat.ble 10 l.length && dateShape (l.take 10) then some (l.take 10, l.drop 10)
  else none

/-- Consume an optional single quote (`'?` in the pattern). -/
def dropQuote (l : List Char) : List Char :=
  match l with
  | '\'' :: r => r
  | _ => l

/-- The optional `[ T]` separator: the consumed characters and the rest. -/
def sepSplit (l : List Char) : List Char × List Char :=
  match l with
  | ' ' :: r => ([' '], r)
  | 'T' :: r => (['T'], r)
  | _ => ([], l)

/-- The optional trailing `Z`: the consumed characters and the rest. -/
def zSplit (l : List Char) : List Char × List Char :=
  match l with
  | 'Z' :: r => (['Z'], r)
  | _ => ([], l)

/-- The regex of `normalize_rfc3339`,
`'?(?P<rfc3339>[0-9]..[0-9][ T]?[0-9:.]*Z?)'?`, matched greedily at the head
of the input (after the mandatory date part every element is optional, so
greedy matching agrees with the regex engine's leftmost-first semantics):
returns the captured `rfc3339` group — without any surrounding quotes — and
the remainder after the whole match. -/
def tryMatch (s : List Char) : Option (List Char × List Char) :=
  match matchDate (dropQuote s) with
  | none => none
  | some (date, r1) =>
    let sep := sepSplit r1
    let tz := sep.2.span isTimeChar
    let z := zSplit tz.2
    some (date ++ sep.1 ++ tz.1 ++ z.1, dropQuote z.2)

/-- `Regex::replace_all` for that one pattern: scan left to right; at the
leftmost match replace the whole match by the quoted captured group and
continue after it; elsewhere copy the character. The fuel argument only
bounds the recursion; one unit per consumed character suffices, and
`normalize_rfc3339` passes the input's length (a match always consumes at
least the ten date characters, so the fuel never runs out). -/
def replaceAllAux : Nat → List Char → List Char
  | 0, s => s
  | _ + 1, [] => []
  | n + 1, c :: rest =>
    match tryMatch (c :: rest) with
    | some (g, r) => '\'' :: (g ++ '\'' :: replaceAllAux n r)
    | none => c :: replaceAllAux n rest

/-- `normalize_rfc3339`: surround with single quotes all parts of `time`
matching the RFC3339-like instant pattern. -/
def normalize_rfc3339 (time : String) : String :=
  String.mk (replaceAllAux time.data.length time.data)

/-- `clauses_from_selector`: always the tombstone-excluding `WHERE` clause,
then the normalized time bounds — both inclusive bounds, one, or, with no
bound at all, the latest-value restriction `ORDER BY time DESC LIMIT 1`. -/
def clauses_from_selector (starttime stoptime : Option String) : String :=
  "WHERE kind!='DEL'" ++
    match starttime, stoptime with
    | some start, some stop =>
      " AND time >= " ++ normalize_rfc3339 start ++ " AND time <= " ++ normalize_rfc3339 stop
    | some start, none => " AND time >= " ++ normalize_rfc3339 start
    | none, some stop => " AND time <= " ++ normalize_rfc3339 stop
    | none, none => " ORDER BY time DESC LIMIT 1"

/-- The query string `on_query` sends: `SELECT * FROM <regex> <clauses>`. -/
def influx_query_str (regex : String) (starttime stoptime : Option String) : String :=
  "SELECT * FROM " ++ regex ++ " " ++ clauses_from_selector starttime stoptime

end ZInflux

namespace ZInflux

/-- Each path expression translates identically under the source's rule and
the amended rule (the two differ only in how a trailing lone `*` is worded:
both drop it). -/
theorem translate_eq_amended (l : List Char) :
    translateChars l = amendedTranslateChars l := by
  induction l using translateChars.induct with
  | case1 => rfl
  | case2 => rfl
  | case3 rest2 ih =>
    simp [translateChars, amendedTranslateChars, ih]
  | case4 c2 rest2 hc2 ih =>
    simp [translateChars, amendedTranslateChars, hc2, ih]
  | case5 rest2 h ih =>
    cases rest2 with
    | nil => rfl
    | cons a l => simp [translateChars, amendedTranslateChars, ih]
  | case6 c2 rest2 h1 h2 ih =>
    cases rest2 with
    | nil => simp [translateChars, amendedTranslateChars, h1, h2]
    | cons a l => simp [translateChars, amendedTranslateChars, h1, h2, ih]

/-- C3 counterexample: on the single expression `a/*` the source emits
`/^a\/$/` — the trailing `*` is dropped, because the peek that guards the
wildcard translation finds no following character — while the claimed rule
(`*` always becomes `.*`) would emit `/^a\/.*$/`. -/
theorem C3_counterexample :
    path_exprs_to_influx_regex ["a/*"] = "/^a\\/$/" ∧
    claimRegex ["a/*"] = "/^a\\/.*$/" ∧
    path_exprs_to_influx_regex ["a/*"] ≠ claimRegex ["a/*"] := by
  refine ⟨rfl, rfl, by decide⟩

/-- C3 (amended): for every non-empty list of path expressions the output is
the `|`-alternation of the translated expressions anchored between `/^` and
`$/`, where `**` and `*` become `.*` — except that a `*` standing as the
final character of a path expression is dropped — `/` becomes `\/`, and every
other character passes through unchanged. -/
theorem C3_key_pattern_translation (path_exprs : List String)
    (_hne : path_exprs ≠ []) :
    path_exprs_to_influx_regex path_exprs = amendedRegex path_exprs := by
  unfold path_exprs_to_influx_regex amendedRegex
  rw [List.map_congr_left (fun e _ => translate_eq_amended e.data)]

/-- C3 witness: the amended translation agreement at a concrete pattern
list. -/
theorem C3_key_pattern_translation_witness :
    (["a/*", "b/**/c"] : List String) ≠ [] ∧
    path_exprs_to_influx_regex ["a/*", "b/**/c"] = amendedRegex ["a/*", "b/**/c"] :=
  ⟨by decide, C3_key_pattern_translation ["a/*", "b/**/c"] (by decide)⟩

/-- C5: with neither bound the clause carries no time-range predicate and
instead appends the latest-value restriction `ORDER BY time DESC LIMIT 1`;
with exactly one bound it is a single-sided inclusive bound, with both an
inclusive range on both ends. -/
theorem C5_latest_value_default :
    (clauses_from_selector none none = "WHERE kind!='DEL' ORDER BY time DESC LIMIT 1" ∧
      ¬ (" AND time".data <:+: (clauses_from_selector none none).data)) ∧
    (∀ start, clauses_from_selector (some start) none =
      "WHERE kind!='DEL'" ++ (" AND time >= " ++ normalize_rfc3339 start)) ∧
    (∀ stop, clauses_from_selector none (some stop) =
      "WHERE kind!='DEL'" ++ (" AND time <= " ++ normalize_rfc3339 stop)) ∧
    (∀ start stop, clauses_from_selector (some start) (some stop) =
      "WHERE kind!='DEL'" ++ (" AND time >= " ++ normalize_rfc3339 start ++
        (" AND time <= " ++ normalize_rfc3339 stop))) := by
  refine ⟨⟨by decide, by decide⟩, fun start => rfl, fun stop => rfl, fun start stop => ?_⟩
  simp [clauses_from_selector, String.append_assoc]

/-- C6: whatever the measurement regex and whichever time bounds the selector
carries, the generated query string contains the predicate `kind!='DEL'`
(the `WHERE kind!='DEL'` clause is a prefix of the clause string), so DEL
rows are filtered per row by the kind tag. -/
theorem C6_tombstone_exclusion (regex : String) (starttime stoptime : Option String) :
    ("WHERE kind!='DEL'".data <+: (clauses_from_selector starttime stoptime).data) ∧
    ("kind!='DEL'".data <:+: (influx_query_str regex starttime stoptime).data) := by
  obtain ⟨rest, hrest⟩ : ∃ rest, clauses_from_selector starttime stoptime =
      "WHERE kind!='DEL'" ++ rest := by
    cases starttime <;> cases stoptime <;> exact ⟨_, rfl⟩
  constructor
  · exact ⟨rest.data, by rw [hrest, String.data_append]⟩
  · have hw : ("WHERE kind!='DEL'" : String).data =
        ("WHERE " : String).data ++ ("kind!='DEL'" : String).data := by decide
    refine ⟨("SELECT * FROM " ++ regex ++ " " ++ "WHERE ").data, rest.data, ?_⟩
    rw [influx_query_str, hrest]
    simp [String.data_append, hw, List.append_assoc]

end ZInflux

namespace ZInflux

theorem dropQuote_length (l : List Char) : (dropQuote l).length ≤ l.length := by
  unfold dropQuote
  split
  · simp
  · exact Nat.le_refl _

theorem sepSplit_length (l : List Char) : (sepSplit l).2.length ≤ l.length := by
  unfold sepSplit
  split
  · simp
  · simp
  · exact Nat.le_refl _

theorem zSplit_length (l : List Char) : (zSplit l).2.length ≤ l.length := by
  unfold zSplit
  split
  · simp
  · exact Nat.le_refl _

theorem span_snd_length (p : Char → Bool) (l : List Char) :
    (l.span p).2.length ≤ l.length := by
  rw [List.span_eq_take_drop]
  exact (List.dropWhile_sublist p).length_le

theorem matchDate_length {l d r : List Char} (h : matchDate l = some (d, r)) :
    r.length < l.length := by
  unfold matchDate at h
  split at h
  · rename_i hc
    obtain ⟨h10, _⟩ := Bool.and_eq_true_iff.mp hc
    have h10' : 10 ≤ l.length := Nat.ble_eq.mp h10
    obtain ⟨rfl, rfl⟩ : d = l.take 10 ∧ r = l.drop 10 := by
      injection h with h'
      injection h' with h1 h2
      exact ⟨h1.symm, h2.symm⟩
    simp only [List.length_drop]
    omega
  · exact absurd h (by simp)

theorem tryMatch_length {s g r : List Char} (h : tryMatch s = some (g, r)) :
    r.length < s.length := by
  unfold tryMatch at h
  cases hm : matchDate (dropQuote s) with
  | none => rw [hm] at h; exact absurd h (by simp)
  | some dr =>
    obtain ⟨d, r1⟩ := dr
    rw [hm] at h
    simp only [Option.some.injEq, Prod.mk.injEq] at h
    obtain ⟨-, hr⟩ := h
    have h1 : r.length ≤ ((sepSplit r1).2.span isTimeChar).2.length := by
      rw [← hr]
      exact Nat.le_trans (dropQuote_length _) (zSplit_length _)
    have h2 : ((sepSplit r1).2.span isTimeChar).2.length ≤ r1.length :=
      Nat.le_trans (span_snd_length _ _) (sepSplit_length _)
    have h3 : r1.length < (dropQuote s).length := matchDate_length hm
    have h4 : (dropQuote s).length ≤ s.length := dropQuote_length s
    omega

theorem replaceAllAux_congr (n : Nat) : ∀ (l : List Char), l.length ≤ n →
    ∀ fuel fuel', l.length ≤ fuel → l.length ≤ fuel' →
    replaceAllAux fuel l = replaceAllAux fuel' l := by
  induction n with
  | zero =>
    intro l hl fuel fuel' _ _
    have : l = [] := List.eq_nil_of_length_eq_zero (Nat.le_zero.mp hl)
    subst this
    cases fuel <;> cases fuel' <;> rfl
  | succ n ih =>
    intro l hl fuel fuel' hf hf'
    cases l with
    | nil => cases fuel <;> cases fuel' <;> rfl
    | cons c rest =>
      simp only [List.length_cons] at hl hf hf'
      cases fuel with
      | zero => omega
      | succ f =>
        cases fuel' with
        | zero => omega
        | succ f' =>
          cases hm : tryMatch (c :: rest) with
          | none =>
            simp only [replaceAllAux, hm]
            rw [ih rest (by omega) f f' (by omega) (by omega)]
          | some gr =>
            obtain ⟨g, r⟩ := gr
            have hlt : r.length < rest.length + 1 := by
              simpa using tryMatch_length hm
            simp only [replaceAllAux, hm]
            rw [ih r (by omega) f f' (by omega) (by omega)]

end ZInflux

namespace ZInflux

theorem replaceAll_of_noMatch (fuel : Nat) (l : List Char)
    (h : ∀ i, i ≤ l.length → tryMatch (l.drop i) = none) :
    replaceAllAux fuel l = l := by
  induction fuel generalizing l with
  | zero => rfl
  | succ n ih =>
    cases l with
    | nil => rfl
    | cons c rest =>
      have h0 : tryMatch (c :: rest) = none := by simpa using h 0 (Nat.zero_le _)
      have hrest : ∀ i, i ≤ rest.length → tryMatch (rest.drop i) = none := by
        intro i hi
        have := h (i + 1) (by simp; omega)
        simpa using this
      simp [replaceAllAux, h0, ih rest hrest]

/-- C4: time-bound quoting. A bound in which no position matches the instant
pattern (a purely relative bound such as `now()-1h`) is returned unmodified;
a bound beginning with an instant — already quoted or not — followed by text
containing no further match (such as a trailing relative offset) is returned
with exactly one pair of single quotes around the captured instant and the
tail untouched; and in general the scan quotes a leftmost match and recurses
on the remainder, or copies a non-matching head character and recurses. -/
theorem C4_time_bound_quoting :
    (∀ t : String, (∀ i, i ≤ t.data.length → tryMatch (t.data.drop i) = none) →
      normalize_rfc3339 t = t) ∧
    (∀ (t : String) (g r : List Char), tryMatch t.data = some (g, r) →
      (∀ i, i ≤ r.length → tryMatch (r.drop i) = none) →
      normalize_rfc3339 t = String.mk ('\'' :: (g ++ '\'' :: r))) ∧
    (∀ (t : String) (g r : List Char), tryMatch t.data = some (g, r) →
      normalize_rfc3339 t =
        String.mk ('\'' :: (g ++ '\'' :: (normalize_rfc3339 (String.mk r)).data))) ∧
    (∀ (c : Char) (rest : List Char), tryMatch (c :: rest) = none →
      normalize_rfc3339 (String.mk (c :: rest)) =
        String.mk (c :: (normalize_rfc3339 (String.mk rest)).data)) := by
  have hstep : ∀ (t : String) (g r : List Char), tryMatch t.data = some (g, r) →
      normalize_rfc3339 t =
        String.mk ('\'' :: (g ++ '\'' :: replaceAllAux r.length r)) := by
    intro t g r hm
    unfold normalize_rfc3339
    cases hd : t.data with
    | nil =>
      rw [hd, show tryMatch [] = none from rfl] at hm
      exact Option.noConfusion hm
    | cons c rest =>
      rw [hd] at hm
      have hlt : r.length < rest.length + 1 := by simpa using tryMatch_length hm
      simp only [List.length_cons, replaceAllAux, hm]
      rw [replaceAllAux_congr rest.length r (by omega) rest.length r.length (by omega)
        (Nat.le_refl _)]
  refine ⟨?_, ?_, ?_, ?_⟩
  · intro t h
    unfold normalize_rfc3339
    rw [replaceAll_of_noMatch _ _ h]
  · intro t g r hm hr
    rw [hstep t g r hm, replaceAll_of_noMatch _ _ hr]
  · intro t g r hm
    rw [hstep t g r hm]
    unfold normalize_rfc3339
    rfl
  · intro c rest hm
    unfold normalize_rfc3339
    simp only [List.length_cons, replaceAllAux, hm]

theorem C4_time_bound_quoting_witness :
    normalize_rfc3339 "now()-1h" = "now()-1h" ∧
    normalize_rfc3339 "2020-11-05T16:31:42Z-1h" =
      String.mk ('\'' :: ("2020-11-05T16:31:42Z".data ++ '\'' :: "-1h".data)) ∧
    normalize_rfc3339 "'2020-11-05'" =
      String.mk ('\'' :: ("2020-11-05".data ++ '\'' :: [])) :=
  ⟨C4_time_bound_quoting.1 "now()-1h" (by decide),
    C4_time_bound_quoting.2.1 "2020-11-05T16:31:42Z-1h" "2020-11-05T16:31:42Z".data
      "-1h".data (by decide) (by decide),
    C4_time_bound_quoting.2.1 "'2020-11-05'" "2020-11-05".data [] (by decide) (by decide)⟩

end ZInflux

namespace ZInflux

/-- C1: tombstone precedence on ingestion. Against a reliable store whose
latest DEL-tagged row for the key parses to logical timestamp `delT`,
applying a Put whose logical timestamp is strictly less than `delT` returns
success, writes no row (the store is unchanged) and schedules nothing. -/
theorem C1_tombstone_precedence (pfx : Option String) (st : Store) (c : Change)
    (m : String) (row : Row) (delT : Ts)
    (hm : measurementOf pfx c.path = some m)
    (hk : c.kind = .put)
    (hrow : latestDelRow st m = some row)
    (hparse : parseTs row.timestamp = some delT)
    (hlt : c.timestamp.ltb delT = true) :
    on_sample pfx (reliableEnv st m) st c = ⟨.ok, st, []⟩ := by
  unfold on_sample
  rw [hm, hk]
  unfold reliableEnv honestDelRead
  rw [hrow]
  simp [get_deletion_timestamp, hparse, hlt]

/-- `Nat.blt` read back as the strict order. -/
theorem blt_eq_false_iff {x y : Nat} : Nat.blt x y = false ↔ ¬ x < y := by
  constructor
  · intro h hlt
    rw [show Nat.blt x y = true from Nat.blt_eq ▸ hlt] at h
    exact Bool.noConfusion h
  · intro h
    exact Bool.eq_false_iff.mpr (fun hb => h (Nat.blt_eq ▸ hb))

/-- C2: the tombstone-ledger read is never treated as absence on failure.
Against a reliable store the read returns the absent value exactly when no
DEL-tagged row exists; a failed query, a failed deserialization and an
unparseable stored timestamp each produce an error; and on the Put path such
an error propagates out of `on_sample` unchanged, with no write. -/
theorem C2_tombstone_read_error_handling :
    (∀ (st : Store) (m : String),
      get_deletion_timestamp m (honestDelRead st m) = .ok none ↔
        latestDelRow st m = none) ∧
    (∀ (m msg : String), ∃ e, get_deletion_timestamp m (.ioError msg) = .error e) ∧
    (∀ (m msg : String), ∃ e, get_deletion_timestamp m (.deserializeError msg) = .error e) ∧
    (∀ (m s : String), parseTs s = none →
      ∃ e, get_deletion_timestamp m (.rows (some s)) = .error e) ∧
    (∀ (pfx : Option String) (env : Env) (st : Store) (c : Change) (m e : String),
      measurementOf pfx c.path = some m → c.kind = .put →
      get_deletion_timestamp m env.delRead = .error e →
      on_sample pfx env st c = ⟨.err e, st, []⟩) := by
  refine ⟨?_, ?_, ?_, ?_, ?_⟩
  · intro st m
    unfold honestDelRead
    cases hrow : latestDelRow st m with
    | none => simp [hrow, get_deletion_timestamp]
    | some row =>
      simp only [Option.map_some']
      constructor
      · intro h
        simp only [get_deletion_timestamp] at h
        cases hp : parseTs row.timestamp <;> rw [hp] at h <;> simp at h
      · intro h
        exact Option.noConfusion h
  · intro m msg; exact ⟨_, rfl⟩
  · intro m msg; exact ⟨_, rfl⟩
  · intro m s hp
    refine ⟨"Failed to parse the latest timestamp for deletion of measurement " ++ m, ?_⟩
    simp only [get_deletion_timestamp, hp]
  · intro pfx env st c m e hm hk herr
    simp only [on_sample, hm, hk, herr]

/-- C9: Put validation. For a Put that is not dropped as stale (the
tombstone read succeeded and reported no strictly-greater logical timestamp),
a missing value yields the validation error and no write, and otherwise
exactly one PUT row with the encoded value and the event's logical timestamp
is appended, indexed at the event's physical time. -/
theorem C9_put_validation (pfx : Option String) (env : Env) (st : Store) (c : Change)
    (m : String) (d : Option Ts)
    (hm : measurementOf pfx c.path = some m)
    (hk : c.kind = .put)
    (hd : get_deletion_timestamp m env.delRead = .ok d)
    (hns : ∀ delT, d = some delT → c.timestamp.ltb delT = false) :
    (c.value = none →
      on_sample pfx env st c =
        ⟨.err ("Received a PUT Sample without value for " ++ c.path), st, []⟩) ∧
    (∀ enc b64 v, c.value = some (enc, b64, v) → env.putWriteOk = true →
      on_sample pfx env st c = ⟨.ok, st ++ [(m, putRow c enc b64 v)], []⟩) := by
  cases d with
  | none =>
    constructor
    · intro hv
      simp [on_sample, hm, hk, hd, hv]
    · intro enc b64 v hv hw
      simp [on_sample, hm, hk, hd, hv, hw]
  | some delT =>
    have hlt : c.timestamp.ltb delT = false := hns delT rfl
    constructor
    · intro hv
      simp [on_sample, hm, hk, hd, hlt, hv]
    · intro enc b64 v hv hw
      simp [on_sample, hm, hk, hd, hlt, hv, hw]

/-- C7: Delete ingestion. With both queries succeeding, the engine purges
exactly the key's rows with physical time strictly less than the delete's
physical time (membership characterised in the second conjunct), writes one
DEL row at the delete's physical time carrying its logical timestamp and no
value, and schedules the key's deferred drop; if the purge or the tombstone
write fails, the call returns an error. -/
theorem C7_delete_ingestion (pfx : Option String) (env : Env) (st : Store) (c : Change)
    (m : String)
    (hm : measurementOf pfx c.path = some m)
    (hk : c.kind = .delete) :
    (env.purgeOk = true → env.delWriteOk = true →
      on_sample pfx env st c =
        ⟨.ok, purge st m c.timestamp.time ++ [(m, delRow c)], [m]⟩) ∧
    (∀ m2 r, (m2, r) ∈ purge st m c.timestamp.time ↔
      ((m2, r) ∈ st ∧ ¬(m2 = m ∧ r.time < c.timestamp.time))) ∧
    (env.purgeOk = false ∨ env.delWriteOk = false →
      ∃ e, (on_sample pfx env st c).result = .err e) := by
  refine ⟨?_, ?_, ?_⟩
  · intro hp hw
    simp [on_sample, hm, hk, hp, hw]
  · intro m2 r
    unfold purge
    rw [List.mem_filter]
    constructor
    · rintro ⟨hmem, hb⟩
      refine ⟨hmem, ?_⟩
      rintro ⟨rfl, hlt⟩
      rw [Bool.not_eq_true', Bool.and_eq_false_iff] at hb
      rcases hb with hb | hb
      · simp at hb
      · exact blt_eq_false_iff.mp hb hlt
    · rintro ⟨hmem, hnot⟩
      refine ⟨hmem, ?_⟩
      rw [Bool.not_eq_true', Bool.and_eq_false_iff]
      by_cases he : m2 = m
      · subst he
        exact Or.inr (blt_eq_false_iff.mpr (fun hlt => hnot ⟨rfl, hlt⟩))
      · exact Or.inl (by simp [he])
  · intro hor
    rcases hor with h | h
    · simp [on_sample, hm, hk, h]
    · cases hp : env.purgeOk <;> simp [on_sample, hm, hk, h, hp]

end ZInflux

namespace ZInflux

/-- C10: prefix guard at the ingestion interface. On a prefix-scoped
storage, an event whose key does not start with the configured prefix makes
`on_sample` return an error before any classification by kind — the theorem
holds for every kind — with the store unchanged and nothing scheduled. -/
theorem C10_prefix_guard (p : String) (env : Env) (st : Store) (c : Change)
    (h : p.data.isPrefixOf c.path.data = false) :
    on_sample (some p) env st c =
      ⟨.err "Received a Sample not starting with path_prefix", st, []⟩ := by
  simp [on_sample, measurementOf, stripPfx, h]

/-- A concrete stored PUT row — a resurrecting write — used by the
concrete-input theorems. -/
def samplePutRow : Row where
  time := 1
  kind := "PUT"
  timestamp := "1/0"
  encoding := some 0
  base64 := some false
  value := some "x"

/-- A concrete tombstone row: `DEL` at physical time 200 carrying the logical
timestamp `200/0`. -/
def sampleDelRow : Row where
  time := 200
  kind := "DEL"
  timestamp := "200/0"
  encoding := none
  base64 := none
  value := none

/-- C8: evaluation of the reclamation task at the failing input. When the
existence check's response fails to deserialize, the source falls through
(the `Err` arm lacks a `return`) and drops the measurement even though a
non-DEL row exists — the store is emptied — while a failed query and an
honest check that sees the PUT row both leave every row intact, as the claim
demands. -/
theorem C8_reclamation_check_bug :
    timedMeasurementDropRun (.deserializeError "invalid JSON") true
      [("k", samplePutRow)] "k" = [] ∧
    timedMeasurementDropRun (.ioError "connection refused") true
      [("k", samplePutRow)] "k" = [("k", samplePutRow)] ∧
    timedMeasurementDropRun (honestCheck [("k", samplePutRow)] "k") true
      [("k", samplePutRow)] "k" = [("k", samplePutRow)] :=
  ⟨by decide, by decide, by decide⟩

theorem C1_tombstone_precedence_witness :
    on_sample (some "/demo/") (reliableEnv [("k", sampleDelRow)] "k") [("k", sampleDelRow)]
      ⟨"/demo/k", .put, ⟨100, 0⟩, some (0, false, "x")⟩ =
      ⟨.ok, [("k", sampleDelRow)], []⟩ :=
  C1_tombstone_precedence (some "/demo/") [("k", sampleDelRow)]
    ⟨"/demo/k", .put, ⟨100, 0⟩, some (0, false, "x")⟩ "k" sampleDelRow ⟨200, 0⟩
    (by decide) rfl (by decide) (by decide) (by decide)

theorem C7_delete_ingestion_witness :
    on_sample (some "/demo/") ⟨.rows none, true, true, true⟩ [("k", samplePutRow)]
      ⟨"/demo/k", .delete, ⟨5, 0⟩, none⟩ =
      ⟨.ok, purge [("k", samplePutRow)] "k" 5 ++
        [("k", delRow ⟨"/demo/k", .delete, ⟨5, 0⟩, none⟩)], ["k"]⟩ :=
  (C7_delete_ingestion (some "/demo/") ⟨.rows none, true, true, true⟩ [("k", samplePutRow)]
    ⟨"/demo/k", .delete, ⟨5, 0⟩, none⟩ "k" (by decide) rfl).1 rfl rfl

theorem C9_put_validation_witness :
    on_sample (some "/demo/") ⟨.rows none, true, true, true⟩ []
      ⟨"/demo/k", .put, ⟨100, 0⟩, some (2, true, "eA==")⟩ =
      ⟨.ok, [("k", putRow ⟨"/demo/k", .put, ⟨100, 0⟩, some (2, true, "eA==")⟩ 2 true "eA==")],
        []⟩ ∧
    on_sample (some "/demo/") ⟨.rows none, true, true, true⟩ []
      ⟨"/demo/k", .put, ⟨100, 0⟩, none⟩ =
      ⟨.err "Received a PUT Sample without value for /demo/k", [], []⟩ :=
  ⟨(C9_put_validation (some "/demo/") ⟨.rows none, true, true, true⟩ []
      ⟨"/demo/k", .put, ⟨100, 0⟩, some (2, true, "eA==")⟩ "k" none (by decide) rfl rfl
      (fun _ h => Option.noConfusion h)).2 2 true "eA==" rfl rfl,
    (C9_put_validation (some "/demo/") ⟨.rows none, true, true, true⟩ []
      ⟨"/demo/k", .put, ⟨100, 0⟩, none⟩ "k" none (by decide) rfl rfl
      (fun _ h => Option.noConfusion h)).1 rfl⟩

theorem C10_prefix_guard_witness :
    on_sample (some "/demo/") ⟨.rows none, true, true, true⟩ [("k", samplePutRow)]
      ⟨"/other/k", .delete, ⟨1, 0⟩, none⟩ =
      ⟨.err "Received a Sample not starting with path_prefix", [("k", samplePutRow)], []⟩ :=
  C10_prefix_guard "/demo/" ⟨.rows none, true, true, true⟩ [("k", samplePutRow)]
    ⟨"/other/k", .delete, ⟨1, 0⟩, none⟩ (by decide)

end ZInflux

namespace ZInflux

theorem C2_tombstone_read_error_witness :
    on_sample (some "/demo/") ⟨.ioError "connection refused", true, true, true⟩
      [("k", samplePutRow)] ⟨"/demo/k", .put, ⟨100, 0⟩, some (0, false, "x")⟩ =
      ⟨.err ("Failed to get latest timestamp for deletion of measurement k : " ++
        "connection refused"), [("k", samplePutRow)], []⟩ :=
  C2_tombstone_read_error_handling.2.2.2.2 (some "/demo/")
    ⟨.ioError "connection refused", true, true, true⟩ [("k", samplePutRow)]
    ⟨"/demo/k", .put, ⟨100, 0⟩, some (0, false, "x")⟩ "k"
    ("Failed to get latest timestamp for deletion of measurement k : connection refused")
    (by decide) rfl rfl

end ZInflux
